import Mathlib

/-! Device communication structures (`src/include/devcomm.h`).

A shallow embedding of the header: the preprocessor constants and macros
(`NCCL_STEPS`, `NCCL_LL_FLAG`, `NCCL_LL_CLEAN_MASK`, `NCCL_LL128_SPLIT`), and
the record declarations (`ncclLLFifoLine`, `CollectiveArgs`, `ncclColl`,
`ncclRing`, `ncclTree`, `ncclChannel`) together with the layout rule the
compiler applies to them on an LP64 target (`#pragma pack(4)` where the header
sets it).
-/

namespace Devcomm

/-! ## Build configuration -/

/-- The two preprocessor switches of the header that the statements below depend on. -/
structure BuildConfig where
  /-- Says whether `TEST_LL_CLEANUP` is defined. -/
  testLLCleanup : Bool
  /-- Says whether `ENABLE_PROFILING` is defined. -/
  enableProfiling : Bool
  deriving DecidableEq

/-! ## Object types and record layout -/

/-- A complete C object type, reduced to what layout needs: `sizeof` and `alignof`. -/
structure CTy where
  size : Nat
  align : Nat
  deriving DecidableEq

/-- A declared member: its name and its type. -/
structure Member where
  name : String
  ty : CTy
  deriving DecidableEq

/-- A member once placed: its name, byte offset and byte size. -/
structure Placed where
  name : String
  off : Nat
  size : Nat
  deriving DecidableEq

def uint8_t : CTy := ⟨1, 1⟩
def uint16_t : CTy := ⟨2, 2⟩
def uint32_t : CTy := ⟨4, 4⟩
def int32_t : CTy := ⟨4, 4⟩
def c_int : CTy := ⟨4, 4⟩
def c_float : CTy := ⟨4, 4⟩
def uint64_t : CTy := ⟨8, 8⟩
def size_t : CTy := ⟨8, 8⟩
def c_long : CTy := ⟨8, 8⟩
/-- Any object pointer on the 64-bit target. -/
def ptr : CTy := ⟨8, 8⟩
/-- The vector type `int4`: four `int`s, aligned to its own size. -/
def int4 : CTy := ⟨16, 16⟩

/-- The type `elem[n]`. -/
def arrayOf (elem : CTy) (n : Nat) : CTy := ⟨elem.size * n, elem.align⟩

/-- Round `x` up to the next multiple of `a`. -/
def alignUp (x a : Nat) : Nat := (x + a - 1) / a * a

/-- Alignment of a member: its natural alignment, capped by the `#pragma pack`
value in force (`none` when no pack is in force). -/
def memberAlign (pack : Option Nat) (t : CTy) : Nat :=
  match pack with
  | none => t.align
  | some p => min t.align p

/-- Place the members of a struct one after the other, starting at byte `cur`,
each at the next offset that satisfies its alignment. -/
def placeFrom (pack : Option Nat) : Nat → List Member → List Placed
  | _, [] => []
  | cur, m :: ms =>
    let o := alignUp cur (memberAlign pack m.ty)
    ⟨m.name, o, m.ty.size⟩ :: placeFrom pack (o + m.ty.size) ms

/-- The placed members of a struct. -/
def structPlaced (pack : Option Nat) (ms : List Member) : List Placed :=
  placeFrom pack 0 ms

/-- Alignment of a struct or union: the largest member alignment. -/
def aggAlign (pack : Option Nat) (ms : List Member) : Nat :=
  ms.foldl (fun a m => max a (memberAlign pack m.ty)) 1

/-- First byte after the last placed member. -/
def placedEnd (ps : List Placed) : Nat :=
  ps.foldl (fun e p => max e (p.off + p.size)) 0

/-- The type `struct { ms }`. -/
def structTy (pack : Option Nat) (ms : List Member) : CTy :=
  ⟨alignUp (placedEnd (structPlaced pack ms)) (aggAlign pack ms), aggAlign pack ms⟩

/-- The placed members of a union: every member starts at byte 0. -/
def unionPlaced (ms : List Member) : List Placed :=
  ms.map (fun m => ⟨m.name, 0, m.ty.size⟩)

/-- The type `union { ms }`. -/
def unionTy (pack : Option Nat) (ms : List Member) : CTy :=
  ⟨alignUp (placedEnd (unionPlaced ms)) (aggAlign pack ms), aggAlign pack ms⟩

/-- Byte offset of the member called `n` (0 when there is none). -/
def offsetOf (ps : List Placed) (n : String) : Nat :=
  match ps.find? (fun p => p.name == n) with
  | some p => p.off
  | none => 0

/-- Byte size of the member called `n` (0 when there is none). -/
def sizeOfMember (ps : List Placed) (n : String) : Nat :=
  match ps.find? (fun p => p.name == n) with
  | some p => p.size
  | none => 0

/-- Offset of element `i` of an array member that starts at `base`. -/
def elemOffset (base : Nat) (elem : CTy) (i : Nat) : Nat := base + i * elem.size

/-! ## Constants and macros -/

def NCCL_STEPS : Nat := 8
def NCCL_LL_FLAG_MAX : Nat := 0x100
def NCCL_LL128_MAX_NTHREADS : Nat := 256
def NCCL_MAX_TREE_ARITY : Nat := 3

/-- The macro `NCCL_LL_CLEAN_MASK`. -/
def NCCL_LL_CLEAN_MASK (cfg : BuildConfig) : Nat :=
  if cfg.testLLCleanup then 0x078 else 0x7ffffff8

/-- Conversion to `uint32_t`. -/
def toUInt32 (a : Nat) : Nat := a % 2 ^ 32

/-- Conversion to `uint64_t`, also the result of unsigned 64-bit arithmetic. -/
def toUInt64 (a : Nat) : Nat := a % 2 ^ 64

/-- The macro `NCCL_LL_FLAG(a)`: `(uint32_t)((a) % NCCL_LL_FLAG_MAX)` under
`TEST_LL_CLEANUP`, `(uint32_t)(a)` otherwise. -/
def NCCL_LL_FLAG (cfg : BuildConfig) (a : Nat) : Nat :=
  if cfg.testLLCleanup then toUInt32 (a % NCCL_LL_FLAG_MAX) else toUInt32 a

/-- The macro `NCCL_LL128_SPLIT(nt)`: `((nt*7/(10*32))*32)` on `int`, with the
division of C (truncating). -/
def NCCL_LL128_SPLIT (nt : Int) : Int := (Int.tdiv (nt * 7) (10 * 32)) * 32

/-! ## Records -/

/-- The anonymous struct of `union ncclLLFifoLine`. -/
def ncclLLFifoLine.words : List Member :=
  [⟨"data1", uint32_t⟩, ⟨"flag1", uint32_t⟩, ⟨"data2", uint32_t⟩, ⟨"flag2", uint32_t⟩]

/-- The members of `union ncclLLFifoLine` (declared outside the packed region). -/
def ncclLLFifoLine.members : List Member :=
  [⟨"words", structTy none ncclLLFifoLine.words⟩, ⟨"v", arrayOf uint64_t 2⟩, ⟨"i4", int4⟩]

def ncclLLFifoLine.ty : CTy := unionTy none ncclLLFifoLine.members

/-- The members of `struct ncclRing` (declared outside the packed region). -/
def ncclRing.members : List Member :=
  [⟨"prev", c_int⟩, ⟨"next", c_int⟩, ⟨"userRanks", ptr⟩, ⟨"devUserRanks", ptr⟩]

def ncclRing.ty : CTy := structTy none ncclRing.members

/-- The members of `struct ncclTree` (declared outside the packed region). -/
def ncclTree.members : List Member :=
  [⟨"depth", c_int⟩, ⟨"up", c_int⟩, ⟨"down", arrayOf c_int NCCL_MAX_TREE_ARITY⟩]

def ncclTree.ty : CTy := structTy none ncclTree.members

/-- The pack value in force from `#pragma pack(4)` to `#pragma pack(pop)`. -/
def pack4 : Option Nat := some 4

def CollectiveArgs.common : List Member := [⟨"nThreads", uint16_t⟩]

def CollectiveArgs.coll : List Member :=
  [⟨"nThreads", uint16_t⟩, ⟨"bid", uint8_t⟩, ⟨"nChannels", uint8_t⟩, ⟨"root", uint32_t⟩,
   ⟨"count", size_t⟩, ⟨"lastChunkSize", size_t⟩]

def CollectiveArgs.p2p : List Member :=
  [⟨"nThreads", uint16_t⟩, ⟨"unused", uint16_t⟩, ⟨"delta", int32_t⟩,
   ⟨"sendCount", size_t⟩, ⟨"recvCount", size_t⟩]

def CollectiveArgs.a2av : List Member :=
  [⟨"nThreads", uint16_t⟩, ⟨"bid", uint8_t⟩, ⟨"nChannels", uint8_t⟩,
   ⟨"count", size_t⟩, ⟨"extra", ptr⟩]

/-- The anonymous union of `struct CollectiveArgs`. -/
def CollectiveArgs.opMembers : List Member :=
  [⟨"common", structTy pack4 CollectiveArgs.common⟩, ⟨"coll", structTy pack4 CollectiveArgs.coll⟩,
   ⟨"p2p", structTy pack4 CollectiveArgs.p2p⟩, ⟨"a2av", structTy pack4 CollectiveArgs.a2av⟩]

def CollectiveArgs.opTy : CTy := unionTy pack4 CollectiveArgs.opMembers

/-- The members of `struct CollectiveArgs`; `op` names the anonymous union. -/
def CollectiveArgs.members : List Member :=
  [⟨"comm", ptr⟩, ⟨"opCount", uint64_t⟩, ⟨"sendbuff", ptr⟩, ⟨"recvbuff", ptr⟩,
   ⟨"op", CollectiveArgs.opTy⟩]

def CollectiveArgs.ty : CTy := structTy pack4 CollectiveArgs.members

/-- The anonymous struct of `struct ncclColl`. -/
def ncclColl.named : List Member :=
  [⟨"args", CollectiveArgs.ty⟩, ⟨"funcIndex", uint16_t⟩, ⟨"nextIndex", uint16_t⟩,
   ⟨"active", uint8_t⟩]

/-- The anonymous union of `struct ncclColl`. -/
def ncclColl.unionMembers : List Member :=
  [⟨"named", structTy pack4 ncclColl.named⟩, ⟨"data", arrayOf c_int 0x10⟩]

def ncclColl.ty : CTy := structTy pack4 [⟨"u", unionTy pack4 ncclColl.unionMembers⟩]

/-- The type `struct timeval` of the C library on the LP64 target: two `long`s. -/
def timeval : CTy := structTy none [⟨"tv_sec", c_long⟩, ⟨"tv_usec", c_long⟩]

/-- The members of `ncclChannel` present only under `ENABLE_PROFILING`. -/
def ncclChannel.profiling : List Member :=
  [⟨"tvs", timeval⟩, ⟨"sizes", uint64_t⟩, ⟨"active_req", c_int⟩, ⟨"send_byte", uint64_t⟩,
   ⟨"recv_byte", uint64_t⟩, ⟨"bw_cumulative", c_float⟩, ⟨"bw_count", c_int⟩]

/-- The anonymous struct of `struct ncclChannel`. -/
def ncclChannel.named (cfg : BuildConfig) : List Member :=
  [⟨"ring", ncclRing.ty⟩, ⟨"treeUp", ncclTree.ty⟩, ⟨"treeDn", ncclTree.ty⟩,
   ⟨"collTreeUp", ncclTree.ty⟩, ⟨"collTreeDn", ncclTree.ty⟩,
   ⟨"id", c_int⟩,
   ⟨"peers", ptr⟩, ⟨"devPeers", ptr⟩,
   ⟨"collectives", ptr⟩, ⟨"collectivesExtra", ptr⟩,
   ⟨"collStart", c_int⟩, ⟨"collCount", c_int⟩, ⟨"collFifoHead", c_int⟩, ⟨"collFifoTail", c_int⟩,
   ⟨"sync", ptr⟩, ⟨"barrier", ptr⟩, ⟨"barrier_next", ptr⟩]
  ++ (if cfg.enableProfiling then ncclChannel.profiling else [])

/-- The anonymous union of `struct ncclChannel`. -/
def ncclChannel.unionMembers (cfg : BuildConfig) : List Member :=
  [⟨"named", structTy pack4 (ncclChannel.named cfg)⟩, ⟨"data", arrayOf c_int 0x80⟩]

def ncclChannel.ty (cfg : BuildConfig) : CTy :=
  structTy pack4 [⟨"u", unionTy pack4 (ncclChannel.unionMembers cfg)⟩]

/-- The modulus at which the LL flag of a step wraps: `NCCL_LL_FLAG_MAX` under
`TEST_LL_CLEANUP`, the range of `uint32_t` otherwise. -/
def llFlagModulus (cfg : BuildConfig) : Nat :=
  if cfg.testLLCleanup then NCCL_LL_FLAG_MAX else 2 ^ 32

/-! ## Bytes of a record -/

/-- A store to an integer or pointer object of `w` bytes at offset `off` of a
record held as a list of bytes: the `w` low bytes of `v`, least significant byte
first (the target is little-endian). A byte that falls outside the record is
not stored. -/
def writeLE (buf : List Nat) (off : Nat) : Nat → Nat → List Nat
  | 0, _ => buf
  | w + 1, v => writeLE (buf.set off (v % 256)) (off + 1) w (v / 256)

/-- A load from an unsigned integer or pointer object of `w` bytes at offset
`off` of a record held as a list of bytes, least significant byte first. -/
def readLE (buf : List Nat) (off : Nat) : Nat → Nat
  | 0 => 0
  | w + 1 => buf.getD off 0 + 256 * readLE buf (off + 1) w

/-- The bit pattern of an `int32_t`. -/
def ofInt32 (x : Int) : Nat := (x % 2 ^ 32).toNat

/-- The `int32_t` with the given bit pattern. -/
def toInt32 (v : Nat) : Int := if v < 2 ^ 31 then (v : Int) else (v : Int) - 2 ^ 32

/-- Offset and size of a member of `CollectiveArgs` inside `ncclColl`. -/
def ncclColl.argsField (n : String) : Nat × Nat :=
  (offsetOf (structPlaced pack4 ncclColl.named) "args"
      + offsetOf (structPlaced pack4 CollectiveArgs.members) n,
    sizeOfMember (structPlaced pack4 CollectiveArgs.members) n)

/-- Offset and size inside `ncclColl` of member `n` of the struct called `u`
(with members `variant`) of the anonymous union of `CollectiveArgs`. -/
def ncclColl.opField (u : String) (variant : List Member) (n : String) : Nat × Nat :=
  ((ncclColl.argsField "op").1 + offsetOf (unionPlaced CollectiveArgs.opMembers) u
      + offsetOf (structPlaced pack4 variant) n,
    sizeOfMember (structPlaced pack4 variant) n)

/-- Offset and size of `funcIndex`, `nextIndex` or `active` inside `ncclColl`. -/
def ncclColl.ownField (n : String) : Nat × Nat :=
  (offsetOf (structPlaced pack4 ncclColl.named) n,
    sizeOfMember (structPlaced pack4 ncclColl.named) n)

/-- The assignment `record.f = v` for a member `f` given by offset and size. -/
def store (buf : List Nat) (f : Nat × Nat) (v : Nat) : List Nat := writeLE buf f.1 f.2 v

/-- The read of `record.f` for a member `f` given by offset and size. -/
def load (buf : List Nat) (f : Nat × Nat) : Nat := readLE buf f.1 f.2

/-- The three op-specific structs of the union of `CollectiveArgs` that carry
arguments, with the values of their members. -/
inductive OpArgs where
  | coll (nThreads bid nChannels root count lastChunkSize : Nat)
  | p2p (nThreads unused : Nat) (delta : Int) (sendCount recvCount : Nat)
  | a2av (nThreads bid nChannels count extra : Nat)
  deriving DecidableEq

/-- Which struct of the union is in use. -/
inductive OpKind where
  | coll | p2p | a2av
  deriving DecidableEq

def OpArgs.kind : OpArgs → OpKind
  | .coll .. => .coll
  | .p2p .. => .p2p
  | .a2av .. => .a2av

/-- The values of the named members of one `ncclColl`. -/
structure CollValue where
  comm : Nat
  opCount : Nat
  sendbuff : Nat
  recvbuff : Nat
  op : OpArgs
  funcIndex : Nat
  nextIndex : Nat
  active : Nat
  deriving DecidableEq

/-- Every member of the op-specific struct holds a value of its type. -/
def OpArgs.inRange : OpArgs → Bool
  | .coll nThreads bid nChannels root count lastChunkSize =>
    decide (nThreads < 2 ^ 16) && decide (bid < 2 ^ 8) && decide (nChannels < 2 ^ 8)
      && decide (root < 2 ^ 32) && decide (count < 2 ^ 64) && decide (lastChunkSize < 2 ^ 64)
  | .p2p nThreads unused delta sendCount recvCount =>
    decide (nThreads < 2 ^ 16) && decide (unused < 2 ^ 16)
      && decide (-(2 ^ 31) ≤ delta) && decide (delta < 2 ^ 31)
      && decide (sendCount < 2 ^ 64) && decide (recvCount < 2 ^ 64)
  | .a2av nThreads bid nChannels count extra =>
    decide (nThreads < 2 ^ 16) && decide (bid < 2 ^ 8) && decide (nChannels < 2 ^ 8)
      && decide (count < 2 ^ 64) && decide (extra < 2 ^ 64)

/-- Every named member holds a value of its type. -/
def CollValue.inRange (c : CollValue) : Bool :=
  decide (c.comm < 2 ^ 64) && decide (c.opCount < 2 ^ 64) && decide (c.sendbuff < 2 ^ 64)
    && decide (c.recvbuff < 2 ^ 64) && c.op.inRange
    && decide (c.funcIndex < 2 ^ 16) && decide (c.nextIndex < 2 ^ 16) && decide (c.active < 2 ^ 8)

/-- Store the members of the op-specific struct in use. -/
def OpArgs.write (buf : List Nat) : OpArgs → List Nat
  | .coll nThreads bid nChannels root count lastChunkSize =>
    let b := store buf (ncclColl.opField "coll" CollectiveArgs.coll "nThreads") nThreads
    let b := store b (ncclColl.opField "coll" CollectiveArgs.coll "bid") bid
    let b := store b (ncclColl.opField "coll" CollectiveArgs.coll "nChannels") nChannels
    let b := store b (ncclColl.opField "coll" CollectiveArgs.coll "root") root
    let b := store b (ncclColl.opField "coll" CollectiveArgs.coll "count") count
    store b (ncclColl.opField "coll" CollectiveArgs.coll "lastChunkSize") lastChunkSize
  | .p2p nThreads unused delta sendCount recvCount =>
    let b := store buf (ncclColl.opField "p2p" CollectiveArgs.p2p "nThreads") nThreads
    let b := store b (ncclColl.opField "p2p" CollectiveArgs.p2p "unused") unused
    let b := store b (ncclColl.opField "p2p" CollectiveArgs.p2p "delta") (ofInt32 delta)
    let b := store b (ncclColl.opField "p2p" CollectiveArgs.p2p "sendCount") sendCount
    store b (ncclColl.opField "p2p" CollectiveArgs.p2p "recvCount") recvCount
  | .a2av nThreads bid nChannels count extra =>
    let b := store buf (ncclColl.opField "a2av" CollectiveArgs.a2av "nThreads") nThreads
    let b := store b (ncclColl.opField "a2av" CollectiveArgs.a2av "bid") bid
    let b := store b (ncclColl.opField "a2av" CollectiveArgs.a2av "nChannels") nChannels
    let b := store b (ncclColl.opField "a2av" CollectiveArgs.a2av "count") count
    store b (ncclColl.opField "a2av" CollectiveArgs.a2av "extra") extra

/-- Load the members of one op-specific struct. -/
def OpArgs.read (buf : List Nat) : OpKind → OpArgs
  | .coll =>
    .coll (load buf (ncclColl.opField "coll" CollectiveArgs.coll "nThreads"))
      (load buf (ncclColl.opField "coll" CollectiveArgs.coll "bid"))
      (load buf (ncclColl.opField "coll" CollectiveArgs.coll "nChannels"))
      (load buf (ncclColl.opField "coll" CollectiveArgs.coll "root"))
      (load buf (ncclColl.opField "coll" CollectiveArgs.coll "count"))
      (load buf (ncclColl.opField "coll" CollectiveArgs.coll "lastChunkSize"))
  | .p2p =>
    .p2p (load buf (ncclColl.opField "p2p" CollectiveArgs.p2p "nThreads"))
      (load buf (ncclColl.opField "p2p" CollectiveArgs.p2p "unused"))
      (toInt32 (load buf (ncclColl.opField "p2p" CollectiveArgs.p2p "delta")))
      (load buf (ncclColl.opField "p2p" CollectiveArgs.p2p "sendCount"))
      (load buf (ncclColl.opField "p2p" CollectiveArgs.p2p "recvCount"))
  | .a2av =>
    .a2av (load buf (ncclColl.opField "a2av" CollectiveArgs.a2av "nThreads"))
      (load buf (ncclColl.opField "a2av" CollectiveArgs.a2av "bid"))
      (load buf (ncclColl.opField "a2av" CollectiveArgs.a2av "nChannels"))
      (load buf (ncclColl.opField "a2av" CollectiveArgs.a2av "count"))
      (load buf (ncclColl.opField "a2av" CollectiveArgs.a2av "extra"))

/-- Store every named member of an `ncclColl` into the bytes of the record. -/
def ncclColl.write (buf : List Nat) (c : CollValue) : List Nat :=
  let b := store buf (ncclColl.argsField "comm") c.comm
  let b := store b (ncclColl.argsField "opCount") c.opCount
  let b := store b (ncclColl.argsField "sendbuff") c.sendbuff
  let b := store b (ncclColl.argsField "recvbuff") c.recvbuff
  let b := c.op.write b
  let b := store b (ncclColl.ownField "funcIndex") c.funcIndex
  let b := store b (ncclColl.ownField "nextIndex") c.nextIndex
  store b (ncclColl.ownField "active") c.active

/-- Load every named member of an `ncclColl` from the bytes of the record,
taking the op-specific struct `k` of the union. -/
def ncclColl.read (k : OpKind) (buf : List Nat) : CollValue where
  comm := load buf (ncclColl.argsField "comm")
  opCount := load buf (ncclColl.argsField "opCount")
  sendbuff := load buf (ncclColl.argsField "sendbuff")
  recvbuff := load buf (ncclColl.argsField "recvbuff")
  op := OpArgs.read buf k
  funcIndex := load buf (ncclColl.ownField "funcIndex")
  nextIndex := load buf (ncclColl.ownField "nextIndex")
  active := load buf (ncclColl.ownField "active")

/-- The byte ranges, inside `ncclColl`, of the named members when the
op-specific struct `u` (with members `variant`) is in use. -/
def ncclColl.ranges (u : String) (variant : List Member) : List (Nat × Nat) :=
  (["comm", "opCount", "sendbuff", "recvbuff"].map ncclColl.argsField)
    ++ (variant.map (fun m => ncclColl.opField u variant m.name))
    ++ (["funcIndex", "nextIndex", "active"].map ncclColl.ownField)

/-- Two byte ranges (offset, size) have no byte in common. -/
def disjointRange (a b : Nat × Nat) : Bool :=
  decide (a.1 + a.2 ≤ b.1) || decide (b.1 + b.2 ≤ a.1)

/-- The ranges of a list have pairwise no byte in common. -/
def pairwiseDisjoint : List (Nat × Nat) → Bool
  | [] => true
  | r :: rs => rs.all (disjointRange r) && pairwiseDisjoint rs

/-- The values of the four words of one `ncclLLFifoLine`. -/
structure LLLine where
  data1 : Nat
  flag1 : Nat
  data2 : Nat
  flag2 : Nat
  deriving DecidableEq

/-- Modelled from the spec: the consumer's test on a received line, which is
not part of this header. A line is taken as valid only when both flag halves
equal the flag expected for the step. -/
def llLineAccepted (expected : Nat) (l : LLLine) : Bool :=
  l.flag1 == expected && l.flag2 == expected

/-- Offset and size of a word of the anonymous struct of `ncclLLFifoLine`. -/
def ncclLLFifoLine.word (n : String) : Nat × Nat :=
  (offsetOf (unionPlaced ncclLLFifoLine.members) "words"
      + offsetOf (structPlaced none ncclLLFifoLine.words) n,
    sizeOfMember (structPlaced none ncclLLFifoLine.words) n)

/-- Offset and size of `v[i]` inside `ncclLLFifoLine`. -/
def ncclLLFifoLine.v (i : Nat) : Nat × Nat :=
  (elemOffset (offsetOf (unionPlaced ncclLLFifoLine.members) "v") uint64_t i, uint64_t.size)

/-! ## Lemmas on the bytes of a record -/

theorem length_writeLE (w : Nat) : ∀ (buf : List Nat) (off v : Nat),
    (writeLE buf off w v).length = buf.length := by
  induction w with
  | zero => intro buf off v; rfl
  | succ w ih => intro buf off v; simp [writeLE, ih]

theorem getD_writeLE_outside (w : Nat) : ∀ (buf : List Nat) (off v i : Nat),
    (i < off ∨ off + w ≤ i) → (writeLE buf off w v).getD i 0 = buf.getD i 0 := by
  induction w with
  | zero => intro buf off v i _; rfl
  | succ w ih =>
    intro buf off v i h
    have hne : off ≠ i := by omega
    simp only [writeLE]
    rw [ih _ _ _ _ (by omega)]
    simp [List.getD_eq_getElem?_getD, List.getElem?_set_ne hne]

theorem readLE_writeLE_disjoint (w2 : Nat) : ∀ (buf : List Nat) (o1 w1 v o2 : Nat),
    (o2 + w2 ≤ o1 ∨ o1 + w1 ≤ o2) →
    readLE (writeLE buf o1 w1 v) o2 w2 = readLE buf o2 w2 := by
  induction w2 with
  | zero => intro buf o1 w1 v o2 _; rfl
  | succ w2 ih =>
    intro buf o1 w1 v o2 h
    simp only [readLE]
    rw [getD_writeLE_outside _ _ _ _ _ (by omega), ih _ _ _ _ _ (by omega)]

theorem readLE_writeLE_same (w : Nat) : ∀ (buf : List Nat) (off v : Nat),
    off + w ≤ buf.length → readLE (writeLE buf off w v) off w = v % 256 ^ w := by
  induction w with
  | zero => intro buf off v _; simp [readLE, Nat.mod_one]
  | succ w ih =>
    intro buf off v h
    have hlt : off < buf.length := by omega
    simp only [writeLE, readLE]
    rw [getD_writeLE_outside _ _ _ _ _ (by omega), ih _ _ _ (by simp; omega)]
    have hget : (buf.set off (v % 256)).getD off 0 = v % 256 := by
      simp [List.getD_eq_getElem?_getD, List.getElem?_set_self, hlt]
    rw [hget, pow_succ, Nat.mul_comm (256 ^ w) 256, Nat.mod_mul]

theorem writeLE_split (w1 : Nat) : ∀ (buf : List Nat) (off w2 v : Nat),
    writeLE buf off (w1 + w2) v = writeLE (writeLE buf off w1 v) (off + w1) w2 (v / 256 ^ w1) := by
  induction w1 with
  | zero => intro buf off w2 v; simp [writeLE]
  | succ w1 ih =>
    intro buf off w2 v
    have h : w1 + 1 + w2 = (w1 + w2) + 1 := by omega
    rw [h]
    simp only [writeLE]
    rw [ih, Nat.div_div_eq_div_mul, pow_succ, Nat.mul_comm (256 ^ w1) 256]
    congr 1
    omega

theorem load_store_same (buf : List Nat) (f : Nat × Nat) (v : Nat)
    (h : f.1 + f.2 ≤ buf.length) (hv : v < 256 ^ f.2) : load (store buf f v) f = v := by
  unfold load store
  rw [readLE_writeLE_same _ _ _ _ h, Nat.mod_eq_of_lt hv]

theorem load_store_disjoint (buf : List Nat) (f g : Nat × Nat) (v : Nat)
    (h : disjointRange f g = true) : load (store buf f v) g = load buf g := by
  unfold load store
  apply readLE_writeLE_disjoint
  simp only [disjointRange, Bool.or_eq_true, decide_eq_true_eq] at h
  omega

theorem length_store (buf : List Nat) (f : Nat × Nat) (v : Nat) :
    (store buf f v).length = buf.length := length_writeLE _ _ _ _

theorem toInt32_ofInt32 (x : Int) (h1 : -(2 ^ 31) ≤ x) (h2 : x < 2 ^ 31) :
    toInt32 (ofInt32 x) = x := by
  unfold toInt32 ofInt32
  have hnn : (0 : Int) ≤ x % 2 ^ 32 := Int.emod_nonneg _ (by norm_num)
  have hcast : ((x % 2 ^ 32).toNat : Int) = x % 2 ^ 32 := Int.toNat_of_nonneg hnn
  split
  · rename_i hlt
    have : ((x % 2 ^ 32).toNat : Int) < 2 ^ 31 := by exact_mod_cast hlt
    omega
  · rename_i hge
    have : ¬ ((x % 2 ^ 32).toNat : Int) < 2 ^ 31 := by
      intro hc; apply hge; exact_mod_cast hc
    omega

theorem ofInt32_lt (x : Int) : ofInt32 x < 2 ^ 32 := by
  unfold ofInt32
  have hnn : (0 : Int) ≤ x % 2 ^ 32 := Int.emod_nonneg _ (by norm_num)
  have hlt : x % 2 ^ 32 < 2 ^ 32 := Int.emod_lt_of_pos _ (by norm_num)
  omega

/-! ## Lemmas on the LL flag -/

theorem NCCL_LL_FLAG_eq_mod (cfg : BuildConfig) (a : Nat) :
    NCCL_LL_FLAG cfg a = a % llFlagModulus cfg := by
  unfold NCCL_LL_FLAG llFlagModulus toUInt32 NCCL_LL_FLAG_MAX
  split <;> omega

theorem llFlagModulus_cases (cfg : BuildConfig) :
    llFlagModulus cfg = 256 ∨ llFlagModulus cfg = 4294967296 := by
  unfold llFlagModulus NCCL_LL_FLAG_MAX
  split <;> simp

/-! ## Sizes of the work record and of the channel -/

/-- C1: under `#pragma pack(4)` on the 64-bit target, `CollectiveArgs` takes 56
bytes (32 bytes up to the union, 24 bytes of union), `funcIndex`, `nextIndex`
and `active` are at offsets 56, 58 and 60, the named members end at byte 61,
inside `int data[0x10]`, and `sizeof(ncclColl)` is `0x10 * sizeof(int)`, which
is 64, a power of two. -/
theorem ncclColl_size_is_64 :
    CollectiveArgs.ty.size = 56
    ∧ offsetOf (structPlaced pack4 CollectiveArgs.members) "op" = 32
    ∧ CollectiveArgs.opTy.size = 24
    ∧ (ncclColl.ownField "funcIndex").1 = 56
    ∧ (ncclColl.ownField "nextIndex").1 = 58
    ∧ (ncclColl.ownField "active").1 = 60
    ∧ placedEnd (structPlaced pack4 ncclColl.named) = 61
    ∧ placedEnd (structPlaced pack4 ncclColl.named) ≤ (arrayOf c_int 0x10).size
    ∧ ncclColl.ty.size = 0x10 * c_int.size
    ∧ ncclColl.ty.size = 64
    ∧ ncclColl.ty.size = 2 ^ 6 := by
  decide

/-- C2: under `#pragma pack(4)` on the 64-bit target, with or without
`ENABLE_PROFILING`, the named members of `ncclChannel` (four `ncclTree` of 20
bytes each among them, and with profiling seven more members, a 16-byte
`struct timeval` among them) end inside `int data[0x80]`, so that
`sizeof(ncclChannel)` is `0x80 * sizeof(int)`, which is 512, a power of two, in
both builds. -/
theorem ncclChannel_size_is_512 (cfg : BuildConfig) :
    ncclTree.ty.size = 20
    ∧ timeval.size = 16
    ∧ ncclChannel.profiling.length = 7
    ∧ (ncclChannel.named cfg).length = (if cfg.enableProfiling then 24 else 17)
    ∧ placedEnd (structPlaced pack4 (ncclChannel.named cfg)) ≤ (arrayOf c_int 0x80).size
    ∧ (ncclChannel.ty cfg).size = 0x80 * c_int.size
    ∧ (ncclChannel.ty cfg).size = 512
    ∧ (ncclChannel.ty cfg).size = 2 ^ 9
    ∧ (ncclChannel.ty cfg).size
        = (ncclChannel.ty ⟨cfg.testLLCleanup, !cfg.enableProfiling⟩).size := by
  obtain ⟨t, e⟩ := cfg
  cases t <;> cases e <;> decide

/-! ## The LL flag -/

/-- C5: for every step `s`, `NCCL_LL_FLAG(s)` is `s` modulo the flag bound,
which is `NCCL_LL_FLAG_MAX = 0x100` under `TEST_LL_CLEANUP` and `2^32` (the flag
is the truncation of `s` to 32 bits) otherwise; the flag is below that bound
and is a `uint32_t`. -/
theorem NCCL_LL_FLAG_is_step_mod_bound (cfg : BuildConfig) (s : Nat) :
    NCCL_LL_FLAG cfg s = s % llFlagModulus cfg
    ∧ llFlagModulus cfg = (if cfg.testLLCleanup then 0x100 else 2 ^ 32)
    ∧ NCCL_LL_FLAG cfg s < llFlagModulus cfg
    ∧ NCCL_LL_FLAG cfg s < 2 ^ 32 := by
  refine ⟨NCCL_LL_FLAG_eq_mod cfg s, rfl, ?_, ?_⟩
  · rw [NCCL_LL_FLAG_eq_mod]
    rcases llFlagModulus_cases cfg with h | h <;> rw [h] <;> omega
  · rw [NCCL_LL_FLAG_eq_mod]
    rcases llFlagModulus_cases cfg with h | h <;> rw [h] <;> omega

/-- C6, as stated, fails: in the default build the flag of step 0 equals the
flag of step `0 + 2^32`, and under `TEST_LL_CLEANUP` the flag of step 0 equals
the flag of step `0 + 0x100`; in both builds a consumer that expects the flag
of the later step accepts a line whose two flag halves are the flag of step
0. -/
theorem NCCL_LL_FLAG_aliases_at_modulus :
    NCCL_LL_FLAG ⟨false, false⟩ 0
        = NCCL_LL_FLAG ⟨false, false⟩ (toUInt64 (0 + llFlagModulus ⟨false, false⟩))
    ∧ llLineAccepted (NCCL_LL_FLAG ⟨false, false⟩ (toUInt64 (0 + llFlagModulus ⟨false, false⟩)))
        ⟨7, NCCL_LL_FLAG ⟨false, false⟩ 0, 9, NCCL_LL_FLAG ⟨false, false⟩ 0⟩ = true
    ∧ NCCL_LL_FLAG ⟨true, false⟩ 0
        = NCCL_LL_FLAG ⟨true, false⟩ (toUInt64 (0 + llFlagModulus ⟨true, false⟩))
    ∧ llLineAccepted (NCCL_LL_FLAG ⟨true, false⟩ (toUInt64 (0 + llFlagModulus ⟨true, false⟩)))
        ⟨7, NCCL_LL_FLAG ⟨true, false⟩ 0, 9, NCCL_LL_FLAG ⟨true, false⟩ 0⟩ = true := by
  decide

/-- C6, amended: for every step `s` and every distance `k` with
`0 < k < flagModulus`, a consumer that expects `NCCL_LL_FLAG(s + k)` does not
accept a line whose flag halves are `NCCL_LL_FLAG(s)`; at the distance
`flagModulus` itself the two flags are equal and the line is accepted. -/
theorem NCCL_LL_FLAG_stale_within_modulus (cfg : BuildConfig) (s d1 d2 : Nat) :
    (∀ k, 0 < k → k < llFlagModulus cfg →
      NCCL_LL_FLAG cfg s ≠ NCCL_LL_FLAG cfg (toUInt64 (s + k))
      ∧ llLineAccepted (NCCL_LL_FLAG cfg (toUInt64 (s + k)))
          ⟨d1, NCCL_LL_FLAG cfg s, d2, NCCL_LL_FLAG cfg s⟩ = false)
    ∧ NCCL_LL_FLAG cfg (toUInt64 (s + llFlagModulus cfg)) = NCCL_LL_FLAG cfg s
    ∧ llLineAccepted (NCCL_LL_FLAG cfg (toUInt64 (s + llFlagModulus cfg)))
        ⟨d1, NCCL_LL_FLAG cfg s, d2, NCCL_LL_FLAG cfg s⟩ = true := by
  have heq : NCCL_LL_FLAG cfg (toUInt64 (s + llFlagModulus cfg)) = NCCL_LL_FLAG cfg s := by
    simp only [NCCL_LL_FLAG_eq_mod, toUInt64]
    rcases llFlagModulus_cases cfg with h | h <;> rw [h] <;> omega
  refine ⟨?_, heq, ?_⟩
  · intro k hk0 hk
    have hne : NCCL_LL_FLAG cfg s ≠ NCCL_LL_FLAG cfg (toUInt64 (s + k)) := by
      simp only [NCCL_LL_FLAG_eq_mod, toUInt64]
      rcases llFlagModulus_cases cfg with h | h <;> rw [h] at hk ⊢ <;> omega
    exact ⟨hne, by simp [llLineAccepted, hne]⟩
  · simp [llLineAccepted, heq]

theorem NCCL_LL_FLAG_stale_within_modulus_witness :
    0 < 5 ∧ 5 < llFlagModulus ⟨true, false⟩
    ∧ llLineAccepted (NCCL_LL_FLAG ⟨true, false⟩ (toUInt64 (254 + 5)))
        ⟨1, NCCL_LL_FLAG ⟨true, false⟩ 254, 2, NCCL_LL_FLAG ⟨true, false⟩ 254⟩ = false :=
  ⟨by decide, by decide,
    ((NCCL_LL_FLAG_stale_within_modulus ⟨true, false⟩ 254 1 2).1 5 (by decide) (by decide)).2⟩

/-- C7: in both builds `NCCL_LL_CLEAN_MASK` (`0x7ffffff8`, or `0x078` under
`TEST_LL_CLEANUP`) and the flag wrap bound (`2^32`, or `NCCL_LL_FLAG_MAX = 0x100`)
are multiples of `NCCL_STEPS = 8`; so two steps with the same flag are the same
modulo `NCCL_STEPS`. -/
theorem NCCL_LL_FLAG_recurs_on_same_slot (cfg : BuildConfig) :
    NCCL_STEPS = 8
    ∧ NCCL_LL_CLEAN_MASK cfg = (if cfg.testLLCleanup then 0x078 else 0x7ffffff8)
    ∧ NCCL_LL_CLEAN_MASK cfg % NCCL_STEPS = 0
    ∧ llFlagModulus cfg = (if cfg.testLLCleanup then NCCL_LL_FLAG_MAX else 2 ^ 32)
    ∧ llFlagModulus cfg % NCCL_STEPS = 0
    ∧ ∀ s t, NCCL_LL_FLAG cfg s = NCCL_LL_FLAG cfg t → s % NCCL_STEPS = t % NCCL_STEPS := by
  refine ⟨rfl, rfl, ?_, rfl, ?_, ?_⟩
  · unfold NCCL_LL_CLEAN_MASK NCCL_STEPS; split <;> rfl
  · unfold llFlagModulus NCCL_LL_FLAG_MAX NCCL_STEPS; split <;> rfl
  · intro s t h
    simp only [NCCL_LL_FLAG_eq_mod] at h
    unfold NCCL_STEPS
    rcases llFlagModulus_cases cfg with hm | hm <;> rw [hm] at h <;> omega

theorem NCCL_LL_FLAG_recurs_on_same_slot_witness :
    NCCL_LL_FLAG ⟨true, false⟩ 3 = NCCL_LL_FLAG ⟨true, false⟩ 515
    ∧ 3 % NCCL_STEPS = 515 % NCCL_STEPS :=
  ⟨by decide, (NCCL_LL_FLAG_recurs_on_same_slot ⟨true, false⟩).2.2.2.2.2 3 515 (by decide)⟩

/-- C10: two steps `s < t` less than the flag wrap bound apart (`2^32`, or
`NCCL_LL_FLAG_MAX = 0x100` under `TEST_LL_CLEANUP`) have different LL flags;
`NCCL_STEPS = 8` is below the bound, so the flags of `NCCL_STEPS` consecutive
64-bit steps are pairwise different, and the flag of `s + 1` differs from the
flag of `s` for every 64-bit step `s`. -/
theorem NCCL_LL_FLAG_unique_in_window (cfg : BuildConfig) :
    (∀ s t, s < t → t - s < llFlagModulus cfg → NCCL_LL_FLAG cfg s ≠ NCCL_LL_FLAG cfg t)
    ∧ NCCL_STEPS < llFlagModulus cfg
    ∧ (∀ s i j, i < j → j < NCCL_STEPS →
        NCCL_LL_FLAG cfg (toUInt64 (s + i)) ≠ NCCL_LL_FLAG cfg (toUInt64 (s + j)))
    ∧ (∀ s, NCCL_LL_FLAG cfg (toUInt64 (s + 1)) ≠ NCCL_LL_FLAG cfg s) := by
  simp only [NCCL_LL_FLAG_eq_mod, toUInt64]
  unfold NCCL_STEPS
  rcases llFlagModulus_cases cfg with hm | hm <;> rw [hm] <;>
    refine ⟨?_, ?_, ?_, ?_⟩ <;> intros <;> omega

theorem NCCL_LL_FLAG_unique_in_window_witness :
    3 < 258 ∧ 258 - 3 < llFlagModulus ⟨true, false⟩
    ∧ NCCL_LL_FLAG ⟨true, false⟩ 3 ≠ NCCL_LL_FLAG ⟨true, false⟩ 258 :=
  ⟨by decide, by decide,
    (NCCL_LL_FLAG_unique_in_window ⟨true, false⟩).1 3 258 (by decide) (by decide)⟩

/-! ## The LL128 thread split -/

/-- C9: for every thread count `nt` with `0 ≤ nt ≤ NCCL_LL128_MAX_NTHREADS`,
the product `nt*7` stays inside `int` and `NCCL_LL128_SPLIT(nt)` is the largest
multiple of 32 not above `7*nt/10`: it is `32 * (7*nt / 320)`, a multiple of 32, between 0 and `nt`, with
`10*split ≤ 7*nt < 10*(split + 32)`, every multiple of 32 not above `7*nt/10`
is not above it, and it is monotone in `nt`; at 256 it is 160. -/
theorem NCCL_LL128_SPLIT_largest_multiple (nt : Int) (h0 : 0 ≤ nt)
    (h1 : nt ≤ (NCCL_LL128_MAX_NTHREADS : Int)) :
    nt * 7 < 2 ^ 31
    ∧ NCCL_LL128_SPLIT nt = (nt * 7 / (10 * 32)) * 32
    ∧ (32 : Int) ∣ NCCL_LL128_SPLIT nt
    ∧ 0 ≤ NCCL_LL128_SPLIT nt
    ∧ NCCL_LL128_SPLIT nt ≤ nt
    ∧ 10 * NCCL_LL128_SPLIT nt ≤ 7 * nt
    ∧ 7 * nt < 10 * (NCCL_LL128_SPLIT nt + 32)
    ∧ (∀ k : Int, 10 * (32 * k) ≤ 7 * nt → 32 * k ≤ NCCL_LL128_SPLIT nt)
    ∧ (∀ m : Int, 0 ≤ m → m ≤ nt → NCCL_LL128_SPLIT m ≤ NCCL_LL128_SPLIT nt)
    ∧ NCCL_LL128_SPLIT 256 = 160 := by
  have hdef : ∀ x : Int, 0 ≤ x → NCCL_LL128_SPLIT x = (x * 7 / (10 * 32)) * 32 := by
    intro x hx
    unfold NCCL_LL128_SPLIT
    rw [Int.tdiv_eq_ediv (by omega) (by norm_num)]
  refine ⟨?_, hdef nt h0, ?_, ?_, ?_, ?_, ?_, ?_, ?_, by decide⟩
  · unfold NCCL_LL128_MAX_NTHREADS at h1; omega
  · rw [hdef nt h0]; exact Dvd.intro_left _ rfl
  · rw [hdef nt h0]; omega
  · rw [hdef nt h0]; omega
  · rw [hdef nt h0]; omega
  · rw [hdef nt h0]; omega
  · intro k hk; rw [hdef nt h0]; omega
  · intro m hm0 hm; rw [hdef nt h0, hdef m hm0]; omega

theorem NCCL_LL128_SPLIT_largest_multiple_witness :
    (0 : Int) ≤ 200 ∧ (200 : Int) ≤ (NCCL_LL128_MAX_NTHREADS : Int)
    ∧ NCCL_LL128_SPLIT 200 = (200 * 7 / (10 * 32)) * 32
    ∧ 10 * NCCL_LL128_SPLIT 200 ≤ 7 * 200 :=
  have h := NCCL_LL128_SPLIT_largest_multiple 200 (by decide) (by decide)
  ⟨by decide, by decide, h.2.1, h.2.2.2.2.2.1⟩

/-! ## The work record as bytes -/

/-- C4: `nThreads` is the leading `uint16_t` of each of `common`, `coll`, `p2p`
and `a2av`, at byte 0 of the union, which is byte 32 of `CollectiveArgs`; so a
value `n` stored as `coll.nThreads`, `p2p.nThreads` or `a2av.nThreads` in a
record is the value loaded as `common.nThreads`. -/
theorem nThreads_common_leading_field (buf : List Nat) (n : Nat)
    (hlen : buf.length = ncclColl.ty.size) (hn : n < 2 ^ 16) :
    CollectiveArgs.common.head? = some ⟨"nThreads", uint16_t⟩
    ∧ CollectiveArgs.coll.head? = some ⟨"nThreads", uint16_t⟩
    ∧ CollectiveArgs.p2p.head? = some ⟨"nThreads", uint16_t⟩
    ∧ CollectiveArgs.a2av.head? = some ⟨"nThreads", uint16_t⟩
    ∧ offsetOf (structPlaced pack4 CollectiveArgs.members) "op" = 32
    ∧ ncclColl.opField "common" CollectiveArgs.common "nThreads" = (32, 2)
    ∧ ncclColl.opField "coll" CollectiveArgs.coll "nThreads" = (32, 2)
    ∧ ncclColl.opField "p2p" CollectiveArgs.p2p "nThreads" = (32, 2)
    ∧ ncclColl.opField "a2av" CollectiveArgs.a2av "nThreads" = (32, 2)
    ∧ load (store buf (ncclColl.opField "coll" CollectiveArgs.coll "nThreads") n)
        (ncclColl.opField "common" CollectiveArgs.common "nThreads") = n
    ∧ load (store buf (ncclColl.opField "p2p" CollectiveArgs.p2p "nThreads") n)
        (ncclColl.opField "common" CollectiveArgs.common "nThreads") = n
    ∧ load (store buf (ncclColl.opField "a2av" CollectiveArgs.a2av "nThreads") n)
        (ncclColl.opField "common" CollectiveArgs.common "nThreads") = n := by
  have e0 : ncclColl.opField "common" CollectiveArgs.common "nThreads" = (32, 2) := by decide
  have e1 : ncclColl.opField "coll" CollectiveArgs.coll "nThreads" = (32, 2) := by decide
  have e2 : ncclColl.opField "p2p" CollectiveArgs.p2p "nThreads" = (32, 2) := by decide
  have e3 : ncclColl.opField "a2av" CollectiveArgs.a2av "nThreads" = (32, 2) := by decide
  have hsz : ncclColl.ty.size = 64 := by decide
  have hrt : load (store buf (32, 2) n) (32, 2) = n :=
    load_store_same buf (32, 2) n (by simp only [hlen, hsz]; decide) (by simpa using hn)
  refine ⟨by decide, by decide, by decide, by decide, by decide, e0, e1, e2, e3, ?_, ?_, ?_⟩
  · rw [e0, e1]; exact hrt
  · rw [e0, e2]; exact hrt
  · rw [e0, e3]; exact hrt

theorem nThreads_common_leading_field_witness :
    (List.replicate 64 0).length = ncclColl.ty.size ∧ 192 < 2 ^ 16
    ∧ load (store (List.replicate 64 0) (ncclColl.opField "p2p" CollectiveArgs.p2p "nThreads") 192)
        (ncclColl.opField "common" CollectiveArgs.common "nThreads") = 192 :=
  ⟨by decide, by decide,
    (nThreads_common_leading_field (List.replicate 64 0) 192 (by decide) (by decide)).2.2.2.2.2.2.2.2.2.2.1⟩

/-- The offsets and sizes of the named members of `ncclColl`, as numbers. -/
theorem ncclColl_fields :
    ncclColl.argsField "comm" = (0, 8) ∧ ncclColl.argsField "opCount" = (8, 8)
    ∧ ncclColl.argsField "sendbuff" = (16, 8) ∧ ncclColl.argsField "recvbuff" = (24, 8)
    ∧ ncclColl.ownField "funcIndex" = (56, 2) ∧ ncclColl.ownField "nextIndex" = (58, 2)
    ∧ ncclColl.ownField "active" = (60, 1)
    ∧ ncclColl.opField "coll" CollectiveArgs.coll "nThreads" = (32, 2)
    ∧ ncclColl.opField "coll" CollectiveArgs.coll "bid" = (34, 1)
    ∧ ncclColl.opField "coll" CollectiveArgs.coll "nChannels" = (35, 1)
    ∧ ncclColl.opField "coll" CollectiveArgs.coll "root" = (36, 4)
    ∧ ncclColl.opField "coll" CollectiveArgs.coll "count" = (40, 8)
    ∧ ncclColl.opField "coll" CollectiveArgs.coll "lastChunkSize" = (48, 8)
    ∧ ncclColl.opField "p2p" CollectiveArgs.p2p "nThreads" = (32, 2)
    ∧ ncclColl.opField "p2p" CollectiveArgs.p2p "unused" = (34, 2)
    ∧ ncclColl.opField "p2p" CollectiveArgs.p2p "delta" = (36, 4)
    ∧ ncclColl.opField "p2p" CollectiveArgs.p2p "sendCount" = (40, 8)
    ∧ ncclColl.opField "p2p" CollectiveArgs.p2p "recvCount" = (48, 8)
    ∧ ncclColl.opField "a2av" CollectiveArgs.a2av "nThreads" = (32, 2)
    ∧ ncclColl.opField "a2av" CollectiveArgs.a2av "bid" = (34, 1)
    ∧ ncclColl.opField "a2av" CollectiveArgs.a2av "nChannels" = (35, 1)
    ∧ ncclColl.opField "a2av" CollectiveArgs.a2av "count" = (36, 8)
    ∧ ncclColl.opField "a2av" CollectiveArgs.a2av "extra" = (44, 8) := by
  decide

theorem ncclColl_read_write_eq (buf : List Nat) (c : CollValue)
    (hlen : buf.length = 64) (hc : c.inRange = true) :
    ncclColl.read c.op.kind (ncclColl.write buf c) = c := by
  obtain ⟨f1, f2, f3, f4, f5, f6, f7, f8, f9, f10, f11, f12, f13, f14, f15, f16, f17, f18,
    f19, f20, f21, f22, f23⟩ := ncclColl_fields
  obtain ⟨comm, opCount, sendbuff, recvbuff, op, funcIndex, nextIndex, active⟩ := c
  cases op with
  | coll nThreads bid nChannels root count lastChunkSize =>
    simp only [CollValue.inRange, OpArgs.inRange, Bool.and_eq_true, decide_eq_true_eq] at hc
    norm_num at hc
    simp only [ncclColl.read, ncclColl.write, OpArgs.read, OpArgs.write, OpArgs.kind,
      f1, f2, f3, f4, f5, f6, f7, f8, f9, f10, f11, f12, f13, load, store]
    simp [readLE_writeLE_disjoint, readLE_writeLE_same, length_writeLE, hlen, Nat.mod_eq_of_lt, hc]
  | p2p nThreads unused delta sendCount recvCount =>
    simp only [CollValue.inRange, OpArgs.inRange, Bool.and_eq_true, decide_eq_true_eq] at hc
    have hd : toInt32 (ofInt32 delta % 4294967296) = delta := by
      rw [Nat.mod_eq_of_lt (by simpa using ofInt32_lt delta)]
      exact toInt32_ofInt32 delta hc.1.1.1.2.1.1.1.2 hc.1.1.1.2.1.1.2
    norm_num at hc
    simp only [ncclColl.read, ncclColl.write, OpArgs.read, OpArgs.write, OpArgs.kind,
      f1, f2, f3, f4, f5, f6, f7, f14, f15, f16, f17, f18, load, store]
    simp [readLE_writeLE_disjoint, readLE_writeLE_same, length_writeLE, hlen, Nat.mod_eq_of_lt, hc,
      hd]
  | a2av nThreads bid nChannels count extra =>
    simp only [CollValue.inRange, OpArgs.inRange, Bool.and_eq_true, decide_eq_true_eq] at hc
    norm_num at hc
    simp only [ncclColl.read, ncclColl.write, OpArgs.read, OpArgs.write, OpArgs.kind,
      f1, f2, f3, f4, f5, f6, f7, f19, f20, f21, f22, f23, load, store]
    simp [readLE_writeLE_disjoint, readLE_writeLE_same, length_writeLE, hlen, Nat.mod_eq_of_lt, hc]

theorem length_OpArgs_write (buf : List Nat) (op : OpArgs) :
    (op.write buf).length = buf.length := by
  cases op <;> simp [OpArgs.write, length_store]

theorem length_ncclColl_write (buf : List Nat) (c : CollValue) :
    (ncclColl.write buf c).length = buf.length := by
  simp [ncclColl.write, length_store, length_OpArgs_write]

/-- C3: for each of `coll`, `p2p` and `a2av` and for all values of the members
(each in the range of its type), storing `comm`, `opCount`, `sendbuff`,
`recvbuff`, the members of the op-specific struct, `funcIndex`, `nextIndex` and
`active` into a 64-byte `ncclColl` record at their packed offsets and loading
the same op-specific struct back gives every member unchanged; the byte ranges
of the members are pairwise disjoint and lie inside the 64 bytes. -/
theorem ncclColl_round_trip (buf : List Nat) (c : CollValue)
    (hlen : buf.length = ncclColl.ty.size) (hc : c.inRange = true) :
    ncclColl.read c.op.kind (ncclColl.write buf c) = c
    ∧ (ncclColl.write buf c).length = ncclColl.ty.size
    ∧ pairwiseDisjoint (ncclColl.ranges "coll" CollectiveArgs.coll) = true
    ∧ pairwiseDisjoint (ncclColl.ranges "p2p" CollectiveArgs.p2p) = true
    ∧ pairwiseDisjoint (ncclColl.ranges "a2av" CollectiveArgs.a2av) = true
    ∧ (ncclColl.ranges "coll" CollectiveArgs.coll ++ ncclColl.ranges "p2p" CollectiveArgs.p2p
        ++ ncclColl.ranges "a2av" CollectiveArgs.a2av).all
          (fun r => decide (r.1 + r.2 ≤ ncclColl.ty.size)) = true := by
  have hsz : ncclColl.ty.size = 64 := by decide
  refine ⟨ncclColl_read_write_eq buf c (hlen.trans hsz) hc, ?_, by decide, by decide, by decide,
    by decide⟩
  rw [length_ncclColl_write, hlen]

theorem ncclColl_round_trip_witness :
    (List.replicate 64 0).length = ncclColl.ty.size
    ∧ CollValue.inRange ⟨4096, 17, 8192, 12288, .p2p 256 0 (-3) 1024 2048, 9, 10, 1⟩ = true
    ∧ ncclColl.read .p2p (ncclColl.write (List.replicate 64 0)
          ⟨4096, 17, 8192, 12288, .p2p 256 0 (-3) 1024 2048, 9, 10, 1⟩)
        = ⟨4096, 17, 8192, 12288, .p2p 256 0 (-3) 1024 2048, 9, 10, 1⟩ :=
  ⟨by decide, by decide,
    (ncclColl_round_trip (List.replicate 64 0)
      ⟨4096, 17, 8192, 12288, .p2p 256 0 (-3) 1024 2048, 9, 10, 1⟩ (by decide) (by decide)).1⟩

/-! ## The LL line -/

/-- C8: `ncclLLFifoLine` takes 16 bytes and holds two (data, flag) pairs:
`data1`, `flag1`, `data2`, `flag2` are 4-byte words at offsets 0, 4, 8, 12, each
flag after its data; `data1` and `flag1` together fill exactly `v[0]` and
`data2` and `flag2` exactly `v[1]`, so one 8-byte store to `v[i]` writes a whole
pair; and a prefix of the line that holds a whole flag holds its data too. -/
theorem ncclLLFifoLine_flag_after_data :
    ncclLLFifoLine.ty.size = 16
    ∧ ncclLLFifoLine.words.map (fun m => m.name) = ["data1", "flag1", "data2", "flag2"]
    ∧ ncclLLFifoLine.word "data1" = (0, 4) ∧ ncclLLFifoLine.word "flag1" = (4, 4)
    ∧ ncclLLFifoLine.word "data2" = (8, 4) ∧ ncclLLFifoLine.word "flag2" = (12, 4)
    ∧ (ncclLLFifoLine.word "data1").1 < (ncclLLFifoLine.word "flag1").1
    ∧ (ncclLLFifoLine.word "data2").1 < (ncclLLFifoLine.word "flag2").1
    ∧ ncclLLFifoLine.v 0 = (0, 8) ∧ ncclLLFifoLine.v 1 = (8, 8)
    ∧ (∀ n, (ncclLLFifoLine.word "flag1").1 + (ncclLLFifoLine.word "flag1").2 ≤ n →
        (ncclLLFifoLine.word "data1").1 + (ncclLLFifoLine.word "data1").2 ≤ n)
    ∧ (∀ n, (ncclLLFifoLine.word "flag2").1 + (ncclLLFifoLine.word "flag2").2 ≤ n →
        (ncclLLFifoLine.word "data2").1 + (ncclLLFifoLine.word "data2").2 ≤ n)
    ∧ (∀ (buf : List Nat) (d f : Nat), buf.length = ncclLLFifoLine.ty.size →
        d < 2 ^ 32 → f < 2 ^ 32 →
        load (store buf (ncclLLFifoLine.v 0) (d + 2 ^ 32 * f)) (ncclLLFifoLine.word "data1") = d
        ∧ load (store buf (ncclLLFifoLine.v 0) (d + 2 ^ 32 * f)) (ncclLLFifoLine.word "flag1") = f
        ∧ load (store buf (ncclLLFifoLine.v 0) (d + 2 ^ 32 * f)) (ncclLLFifoLine.v 1)
            = load buf (ncclLLFifoLine.v 1))
    ∧ (∀ (buf : List Nat) (d f : Nat), buf.length = ncclLLFifoLine.ty.size →
        d < 2 ^ 32 → f < 2 ^ 32 →
        load (store buf (ncclLLFifoLine.v 1) (d + 2 ^ 32 * f)) (ncclLLFifoLine.word "data2") = d
        ∧ load (store buf (ncclLLFifoLine.v 1) (d + 2 ^ 32 * f)) (ncclLLFifoLine.word "flag2") = f
        ∧ load (store buf (ncclLLFifoLine.v 1) (d + 2 ^ 32 * f)) (ncclLLFifoLine.v 0)
            = load buf (ncclLLFifoLine.v 0)) := by
  have w1 : ncclLLFifoLine.word "data1" = (0, 4) := by decide
  have w2 : ncclLLFifoLine.word "flag1" = (4, 4) := by decide
  have w3 : ncclLLFifoLine.word "data2" = (8, 4) := by decide
  have w4 : ncclLLFifoLine.word "flag2" = (12, 4) := by decide
  have v0 : ncclLLFifoLine.v 0 = (0, 8) := by decide
  have v1 : ncclLLFifoLine.v 1 = (8, 8) := by decide
  have hsz : ncclLLFifoLine.ty.size = 16 := by decide
  have pair : ∀ (buf : List Nat) (o d f : Nat), o + 8 ≤ buf.length → d < 2 ^ 32 → f < 2 ^ 32 →
      readLE (writeLE buf o 8 (d + 2 ^ 32 * f)) o 4 = d
      ∧ readLE (writeLE buf o 8 (d + 2 ^ 32 * f)) (o + 4) 4 = f := by
    intro buf o d f ho hd hf
    rw [show (8 : Nat) = 4 + 4 from rfl, writeLE_split]
    constructor
    · rw [readLE_writeLE_disjoint _ _ _ _ _ _ (by omega), readLE_writeLE_same _ _ _ _ (by omega)]
      norm_num
      omega
    · rw [readLE_writeLE_same _ _ _ _ (by rw [length_writeLE]; omega)]
      norm_num
      omega
  refine ⟨hsz, by decide, w1, w2, w3, w4, by decide, by decide, v0, v1, ?_, ?_, ?_, ?_⟩
  · rw [w1, w2]; intro n h; simp only at h ⊢; omega
  · rw [w3, w4]; intro n h; simp only at h ⊢; omega
  · intro buf d f hlen hd hf
    rw [hsz] at hlen
    rw [w1, w2, v0, v1]
    have h := pair buf 0 d f (by omega) hd hf
    exact ⟨h.1, h.2, readLE_writeLE_disjoint _ _ _ _ _ _ (by simp)⟩
  · intro buf d f hlen hd hf
    rw [hsz] at hlen
    rw [w3, w4, v0, v1]
    have h := pair buf 8 d f (by omega) hd hf
    exact ⟨h.1, h.2, readLE_writeLE_disjoint _ _ _ _ _ _ (by simp)⟩

theorem ncclLLFifoLine_flag_after_data_witness :
    (List.replicate 16 255).length = ncclLLFifoLine.ty.size
    ∧ 3735928559 < 2 ^ 32 ∧ 7 < 2 ^ 32
    ∧ load (store (List.replicate 16 255) (ncclLLFifoLine.v 1) (3735928559 + 2 ^ 32 * 7))
        (ncclLLFifoLine.word "flag2") = 7 :=
  ⟨by decide, by decide, by decide,
    (ncclLLFifoLine_flag_after_data.2.2.2.2.2.2.2.2.2.2.2.2.2 (List.replicate 16 255) 3735928559 7
      (by decide) (by decide) (by decide)).2.1⟩

end Devcomm
